import Mathlib

/-!
Verification of the dataset / training / evaluation pipeline of the
Plant_Disease_Detection repository.

Shallow embedding of:
  * `data/dataset.py` — `PlantDataset.__getitem__` (label encoding, image
    fetch), `get_datasets` (split sizing via `random_split`),
    `get_dataloaders` (shuffle flags);
  * `plant-disease-detection/utils/metrics.py` — `calculate_metrics`
    (accuracy and macro precision / recall / F1 with sklearn defaults);
  * `plant-disease-detection/train.py` — the best-checkpoint logic of `main`;
  * `evaluate.py` — checkpoint loading with fallback to fresh weights.

Machine floats are modelled as exact rationals (`ℚ`): for the fixed split
ratios 0.8 / 0.1 and dataset sizes under 2^49, `int(ratio * n)` in IEEE
double arithmetic agrees with the rational floor, since the fractional part
of the exact product is either 0 or at least 0.1, far above the rounding
error.  Python string paths are `String`, the filesystem and the image
decoder are explicit finite maps, and torch tensors of labels / logits are
lists over `ℕ` / `ℚ`.
-/

namespace PlantDisease

/-! ### Split sizing (`get_datasets`, dataset.py lines 65–73) -/

/-- The hardcoded class-column list of `PlantDataset.__init__`
(`self.classes = ['healthy', 'multiple_diseases', 'rust', 'scab']`). -/
def classes : List String := ["healthy", "multiple_diseases", "rust", "scab"]

/-- `int(ratio * n)`: truncation of the (nonnegative) product to an integer. -/
def splitSize (ratio : ℚ) (n : ℕ) : ℕ := ⌊ratio * n⌋₊

/-- `train_size = int(split_ratios[0] * len(full_dataset))` with the default
ratios `(0.8, 0.1, 0.1)`. -/
def train_size (n : ℕ) : ℕ := splitSize (8/10) n

/-- `val_size = int(split_ratios[1] * len(full_dataset))`. -/
def val_size (n : ℕ) : ℕ := splitSize (1/10) n

/-- `test_size = len(full_dataset) - train_size - val_size`. -/
def test_size (n : ℕ) : ℕ := n - train_size n - val_size n

/-- The three split sizes computed by `get_datasets`, including its
redundant "handle rounding issues" fix-up
(`if train_size + val_size + test_size != len: test_size = len - train - val`). -/
def get_datasets_sizes (n : ℕ) : ℕ × ℕ × ℕ :=
  let t := train_size n
  let v := val_size n
  let te := n - t - v
  let teFixed := if t + v + te ≠ n then n - t - v else te
  (t, v, teFixed)

lemma train_size_eq (n : ℕ) : train_size n = 8 * n / 10 := by
  unfold train_size splitSize
  have h : (8/10 : ℚ) * n = ((8 * n : ℕ) : ℚ) / ((10 : ℕ) : ℚ) := by
    push_cast; ring
  rw [h, Nat.floor_div_eq_div]

lemma val_size_eq (n : ℕ) : val_size n = n / 10 := by
  unfold val_size splitSize
  have h : (1/10 : ℚ) * n = ((n : ℕ) : ℚ) / ((10 : ℕ) : ℚ) := by
    push_cast; ring
  rw [h, Nat.floor_div_eq_div]

lemma get_datasets_sizes_eq (n : ℕ) :
    get_datasets_sizes n = (train_size n, val_size n, n - train_size n - val_size n) := by
  simp [get_datasets_sizes]

/-- **C1.** For every dataset of `n` manifest rows and the default split
ratios `(0.8, 0.1, 0.1)`, `get_datasets` produces splits of sizes
`train = ⌊0.8 n⌋`, `val = ⌊0.1 n⌋` and `test = n - train - val`, so that the
three sizes sum to exactly `n`; for `n = 100` the sizes are `(80, 10, 10)`. -/
theorem c1_split_sizes (n : ℕ) :
    (get_datasets_sizes n).1 = ⌊(8/10 : ℚ) * n⌋₊ ∧
    (get_datasets_sizes n).2.1 = ⌊(1/10 : ℚ) * n⌋₊ ∧
    (get_datasets_sizes n).1 + (get_datasets_sizes n).2.1 + (get_datasets_sizes n).2.2 = n ∧
    get_datasets_sizes 100 = (80, 10, 10) := by
  rw [get_datasets_sizes_eq, get_datasets_sizes_eq]
  refine ⟨rfl, rfl, ?_, ?_⟩
  · have ht := train_size_eq n
    have hv := val_size_eq n
    simp only
    omega
  · have ht := train_size_eq 100
    have hv := val_size_eq 100
    rw [ht, hv]

/-! ### Checkpointing (`train.py` `main`, lines 112–132) -/

/-- The checkpoint-relevant state of one training run: the best validation
accuracy seen so far (`best_acc`, initialised to `0.0`), the content of the
single per-architecture checkpoint file (modelled as the epoch whose weights
it holds, `none` while no file has been written), and the number of
`torch.save` calls so far. -/
structure CkptState where
  bestAcc : ℚ
  savedEpoch : Option ℕ
  numWrites : ℕ
deriving DecidableEq, Repr

/-- `best_acc = 0.0`, no checkpoint file yet. -/
def initCkptState : CkptState := ⟨0, none, 0⟩

/-- End-of-epoch logic of `train.py`:
`if val_metrics['accuracy'] > best_acc: best_acc = ...; torch.save(...)`.
The save overwrites the single file `best_model_{arch}.pth`. -/
def maybeCheckpoint (s : CkptState) (epoch : ℕ) (valAcc : ℚ) : CkptState :=
  if valAcc > s.bestAcc then ⟨valAcc, some epoch, s.numWrites + 1⟩ else s

/-- Run the per-epoch checkpoint logic over a list of validation accuracies,
starting at 1-based epoch number `e`. -/
def runCkptFrom (s : CkptState) (e : ℕ) : List ℚ → CkptState
  | [] => s
  | a :: rest => runCkptFrom (maybeCheckpoint s e a) (e + 1) rest

/-- A whole training run: fold the checkpoint logic over the per-epoch
validation accuracies starting from `best_acc = 0.0`. -/
def runCheckpointLoop (accs : List ℚ) : CkptState := runCkptFrom initCkptState 1 accs

/-- **C2.** A checkpoint write happens at the end of an epoch iff that
epoch's validation accuracy strictly exceeds the best seen so far; the write
overwrites the single checkpoint file with the current weights and updates
the best-accuracy tracker.  For validation accuracies
`[0.5, 0.7, 0.6, 0.9]` exactly 3 writes occur (epochs 1, 2 and 4) and the
final file holds epoch 4's weights. -/
theorem c2_checkpoint_iff_strict_improvement :
    (∀ (s : CkptState) (e : ℕ) (a : ℚ),
      (maybeCheckpoint s e a).numWrites =
          s.numWrites + (if s.bestAcc < a then 1 else 0) ∧
      (maybeCheckpoint s e a).savedEpoch =
          (if s.bestAcc < a then some e else s.savedEpoch) ∧
      (maybeCheckpoint s e a).bestAcc = (if s.bestAcc < a then a else s.bestAcc)) ∧
    runCheckpointLoop [1/2, 7/10, 3/5, 9/10] = ⟨9/10, some 4, 3⟩ := by
  constructor
  · intro s e a
    unfold maybeCheckpoint
    split <;> simp_all
  · norm_num [runCheckpointLoop, runCkptFrom, maybeCheckpoint, initCkptState]

lemma runCkptFrom_all_zero (accs : List ℚ) :
    ∀ (s : CkptState) (e : ℕ), s.bestAcc = 0 → (∀ a ∈ accs, a = 0) →
      runCkptFrom s e accs = s := by
  induction accs with
  | nil => intro s e _ _; rfl
  | cons a rest ih =>
    intro s e hbest hall
    have ha : a = 0 := hall a (List.mem_cons_self a rest)
    have hstep : maybeCheckpoint s e a = s := by
      unfold maybeCheckpoint
      rw [if_neg]
      rw [ha, hbest]
      simp
    unfold runCkptFrom
    rw [hstep]
    exact ih s (e + 1) hbest (fun b hb => hall b (List.mem_cons_of_mem a hb))

/-- **C9.** Because `best_acc` starts at `0.0` and the comparison is strict,
a run in which every epoch's validation accuracy is `0.0` never writes a
checkpoint file: the run ends with no saved file and zero writes. -/
theorem c9_all_zero_accuracy_never_writes (accs : List ℚ)
    (h : ∀ a ∈ accs, a = 0) :
    runCheckpointLoop accs = initCkptState := by
  unfold runCheckpointLoop
  exact runCkptFrom_all_zero accs initCkptState 1 rfl h

/-- Witness for C9 at the concrete accuracy sequence `[0, 0, 0]`. -/
theorem c9_witness :
    (∀ a ∈ ([0, 0, 0] : List ℚ), a = 0) ∧
      runCheckpointLoop [0, 0, 0] = initCkptState :=
  ⟨by simp, c9_all_zero_accuracy_never_writes [0, 0, 0] (by simp)⟩

/-! ### Label encoding (`PlantDataset.__getitem__`, dataset.py lines 18–34) -/

/-- `numpy.ndarray.argmax` on a vector, as used on `row[self.classes]`:
scan left to right keeping the first index whose value is strictly greater
than the best so far, so the first occurrence of the maximum wins.
`i` is the index of the head of the remaining list, `bi`/`bv` the best
index/value so far. -/
def argmaxGo : List ℚ → ℕ → ℕ → ℚ → ℕ
  | [], _, bi, _ => bi
  | v :: rest, i, bi, bv =>
    if bv < v then argmaxGo rest (i + 1) i v else argmaxGo rest (i + 1) bi bv

/-- `argmax` of a list of rationals (0 on the empty list, which numpy
rejects; `label_vec` always has the four class columns). -/
def argmax : List ℚ → ℕ
  | [] => 0
  | v :: rest => argmaxGo rest 1 0 v

/-- One row of `train.csv`: an `image_id` and the four class-probability
columns, in the fixed order of `PlantDataset.classes`. -/
structure ManifestRow where
  image_id : String
  healthy : ℚ
  multiple_diseases : ℚ
  rust : ℚ
  scab : ℚ
deriving DecidableEq, Repr

/-- `row[self.classes].values`: the class columns in the order
`[healthy, multiple_diseases, rust, scab]`. -/
def labelVec (r : ManifestRow) : List ℚ :=
  [r.healthy, r.multiple_diseases, r.rust, r.scab]

/-- `label = label_vec.argmax()`. -/
def encodeLabel (r : ManifestRow) : ℕ := argmax (labelVec r)

/-- The row is one-hot with its single `1` in class column `k`. -/
def OneHotRow (r : ManifestRow) (k : ℕ) : Prop :=
  labelVec r = [if k = 0 then 1 else 0, if k = 1 then 1 else 0,
                if k = 2 then 1 else 0, if k = 3 then 1 else 0]

lemma encodeLabel_lt_four (r : ManifestRow) : encodeLabel r < 4 := by
  obtain ⟨id, a, b, c, d⟩ := r
  simp only [encodeLabel, labelVec, argmax, argmaxGo]
  split_ifs <;> norm_num

/-- **C3.** The encoded label is the smallest index attaining the maximum of
the class columns in the fixed order `[healthy, multiple_diseases, rust,
scab]`: it is a valid index, its value is maximal, every earlier index has a
strictly smaller value, and on a one-hot row it is the index of the single
`1` column. -/
theorem c3_label_first_argmax (r : ManifestRow) :
    encodeLabel r < 4 ∧
    (∀ j, j < 4 → (labelVec r).getD j 0 ≤ (labelVec r).getD (encodeLabel r) 0) ∧
    (∀ j, j < encodeLabel r →
      (labelVec r).getD j 0 < (labelVec r).getD (encodeLabel r) 0) ∧
    (∀ k, k < 4 → OneHotRow r k → encodeLabel r = k) := by
  refine ⟨encodeLabel_lt_four r, ?_, ?_, ?_⟩
  · obtain ⟨id, a, b, c, d⟩ := r
    simp only [encodeLabel, labelVec, argmax, argmaxGo]
    split_ifs <;>
      (intro j hj; interval_cases j <;>
        simp only [List.getD_cons_zero, List.getD_cons_succ] <;> linarith)
  · obtain ⟨id, a, b, c, d⟩ := r
    simp only [encodeLabel, labelVec, argmax, argmaxGo]
    split_ifs <;>
      (intro j hj; interval_cases j <;>
        simp only [List.getD_cons_zero, List.getD_cons_succ] <;> linarith)
  · intro k hk oh
    obtain ⟨id, a, b, c, d⟩ := r
    simp only [OneHotRow, labelVec, List.cons.injEq, and_true] at oh
    interval_cases k <;>
      (simp only [reduceIte] at oh;
       obtain ⟨ha, hb, hc, hd⟩ := oh; subst ha; subst hb; subst hc; subst hd;
       norm_num [encodeLabel, labelVec, argmax, argmaxGo])

/-- Witness for C3: the one-hot row `(0, 1, 0, 0)` encodes to label 1. -/
theorem c3_witness :
    OneHotRow ⟨"Train_0", 0, 1, 0, 0⟩ 1 ∧ encodeLabel ⟨"Train_0", 0, 1, 0, 0⟩ = 1 :=
  ⟨by simp [OneHotRow, labelVec],
   (c3_label_first_argmax ⟨"Train_0", 0, 1, 0, 0⟩).2.2.2 1 (by simp)
     (by simp [OneHotRow, labelVec])⟩

/-! ### Fetching one example (`PlantDataset.__getitem__`, dataset.py 18–34) -/

/-- The ways `__getitem__` can fail: `dataframe.iloc[idx]` raising
`IndexError`, or `Image.open(img_path)` raising `FileNotFoundError` /
`UnidentifiedImageError` for an absent or corrupt file. -/
inductive DataError where
  | indexOutOfRange : DataError
  | imageLoadError : DataError
deriving DecidableEq, Repr

/-- `PlantDataset.__getitem__`: look up the manifest row, build
`root_dir/image_id.jpg`, decode the image (`store` returns `none` exactly
when the file is absent or corrupt, in which case the decode error
propagates — there is no try/except in the source), encode the label by
argmax, and apply the transform if present.  `Img` stands for the decoded
pixel buffer type. -/
def getItem (Img : Type) (store : String → Option Img)
    (transform : Option (Img → Img)) (df : List ManifestRow)
    (root_dir : String) (idx : ℕ) : Except DataError (Img × ℕ) :=
  match df.get? idx with
  | none => .error .indexOutOfRange
  | some row =>
    let img_name := row.image_id ++ ".jpg"
    let img_path := root_dir ++ "/" ++ img_name
    match store img_path with
    | none => .error .imageLoadError
    | some image =>
      let out := match transform with
        | some t => t image
        | none => image
      .ok (out, encodeLabel row)

/-- **C6.** If the image file for the requested index is absent or corrupt
(the decoder yields nothing for its path), `__getitem__` propagates a data
error to the caller: it returns the error and never a placeholder
`(image, label)` pair. -/
theorem c6_missing_image_raises (Img : Type) (store : String → Option Img)
    (transform : Option (Img → Img)) (df : List ManifestRow)
    (root_dir : String) (idx : ℕ) (row : ManifestRow)
    (hrow : df.get? idx = some row)
    (habsent : store (root_dir ++ "/" ++ (row.image_id ++ ".jpg")) = none) :
    getItem Img store transform df root_dir idx = .error .imageLoadError ∧
    ∀ out : Img × ℕ, getItem Img store transform df root_dir idx ≠ .ok out := by
  have h : getItem Img store transform df root_dir idx = .error .imageLoadError := by
    unfold getItem
    rw [hrow]
    simp only
    rw [habsent]
  exact ⟨h, fun out hout => by rw [h] at hout; exact Except.noConfusion hout⟩

/-- Witness for C6: a one-row manifest whose image store is empty. -/
theorem c6_witness :
    getItem ℕ (fun _ => none) none [⟨"Train_0", 1, 0, 0, 0⟩] "dataset/images" 0 =
      .error .imageLoadError :=
  (c6_missing_image_raises ℕ (fun _ => none) none [⟨"Train_0", 1, 0, 0, 0⟩]
    "dataset/images" 0 ⟨"Train_0", 1, 0, 0, 0⟩ rfl rfl).1

/-! ### The hardcoded class list versus `--num_classes` (train.py line 78) -/

/-- The argparse default of `--num_classes` in `train.py`. -/
def default_num_classes : ℕ := 38

/-- **C10.** The class-column list is hardcoded to four names inside the
dataset adapter, so every label returned by `__getitem__` is in
`{0, 1, 2, 3}`, whatever the caller-configurable `--num_classes`
(default 38) says; this holds for every example fetched from any split. -/
theorem c10_labels_below_four :
    classes.length = 4 ∧ default_num_classes = 38 ∧
    ∀ (num_classes : ℕ) (Img : Type) (store : String → Option Img)
      (transform : Option (Img → Img)) (df : List ManifestRow)
      (root_dir : String) (idx : ℕ) (img : Img) (lbl : ℕ),
      getItem Img store transform df root_dir idx = .ok (img, lbl) → lbl < 4 := by
  refine ⟨rfl, rfl, ?_⟩
  intro _num_classes Img store transform df root_dir idx img lbl h
  unfold getItem at h
  rcases hd : df.get? idx with _ | row
  · rw [hd] at h; exact Except.noConfusion h
  · rw [hd] at h
    simp only at h
    rcases hs : store (root_dir ++ "/" ++ (row.image_id ++ ".jpg")) with _ | image
    · rw [hs] at h; exact Except.noConfusion h
    · rw [hs] at h
      have hlbl : lbl = encodeLabel row := by
        cases transform <;> simp only [Except.ok.injEq, Prod.mk.injEq] at h <;>
          exact h.2.symm
      rw [hlbl]
      exact encodeLabel_lt_four row

/-- Witness for C10 at a concrete fetch that succeeds with label 0. -/
theorem c10_witness :
    getItem ℕ (fun _ => some 7) none [⟨"Train_0", 1, 0, 0, 0⟩] "d" 0 =
      .ok (7, 0) ∧ (0 : ℕ) < 4 := by
  have hget : getItem ℕ (fun _ => some 7) none [⟨"Train_0", 1, 0, 0, 0⟩] "d" 0 =
      .ok (7, 0) := by
    norm_num [getItem, encodeLabel, labelVec, argmax, argmaxGo]
  exact ⟨hget,
    c10_labels_below_four.2.2 38 ℕ (fun _ => some 7) none
      [⟨"Train_0", 1, 0, 0, 0⟩] "d" 0 7 0 hget⟩

/-! ### Metric calculation (`utils/metrics.py` lines 4–22)

`calculate_metrics` takes logits and targets, computes
`preds = argmax(y_pred, dim=1)`, then
`accuracy_score(targets, preds)` and
`precision_recall_fscore_support(targets, preds, average='macro',
zero_division=0)`.  sklearn's default `labels=None` means the per-class
scores are computed (and averaged) over the *sorted union of the labels
observed in targets or preds*, not over any externally supplied class list;
since a mean does not depend on the order of its summands we keep the union
in `dedup` order. -/

/-- Occurrences of class `c` in a label list. -/
def countC (l : List ℕ) (c : ℕ) : ℕ := l.countP (fun x => x == c)

/-- Positions where target and prediction agree. -/
def matchCount (t p : List ℕ) : ℕ := (t.zip p).countP (fun x => x.1 == x.2)

/-- True positives of class `c`: positions predicted `c` with target `c`. -/
def tpCount (t p : List ℕ) (c : ℕ) : ℕ :=
  (t.zip p).countP (fun x => x.1 == c && x.2 == c)

/-- `accuracy_score`: fraction of agreeing positions. -/
def accuracy_score (t p : List ℕ) : ℚ := (matchCount t p : ℚ) / (t.length : ℚ)

/-- Per-class precision with the `zero_division=0` policy. -/
def precClass (t p : List ℕ) (c : ℕ) : ℚ :=
  if countC p c = 0 then 0 else (tpCount t p c : ℚ) / (countC p c : ℚ)

/-- Per-class recall with the `zero_division=0` policy. -/
def recClass (t p : List ℕ) (c : ℕ) : ℚ :=
  if countC t c = 0 then 0 else (tpCount t p c : ℚ) / (countC t c : ℚ)

/-- Per-class F1: harmonic mean of precision and recall, 0 when both are 0. -/
def f1Class (t p : List ℕ) (c : ℕ) : ℚ :=
  if precClass t p c + recClass t p c = 0 then 0
  else 2 * precClass t p c * recClass t p c / (precClass t p c + recClass t p c)

/-- The label set sklearn uses with `labels=None`: the classes observed in
targets or predictions (sklearn sorts it; a mean is order-independent). -/
def presentLabels (t p : List ℕ) : List ℕ := (t ++ p).dedup

/-- Mean of a per-class score over a label list (0 for the empty list). -/
def macroAvg (f : ℕ → ℚ) (labels : List ℕ) : ℚ :=
  (labels.map f).sum / (labels.length : ℚ)

/-- The record returned by `calculate_metrics`. -/
structure Metrics where
  accuracy : ℚ
  precision : ℚ
  «recall» : ℚ
  f1 : ℚ
deriving DecidableEq, Repr

/-- `calculate_metrics(y_true, y_pred)`: `y_pred` are per-example logits,
`y_true` integer targets. -/
def calculate_metrics (y_true : List ℕ) (y_pred : List (List ℚ)) : Metrics :=
  let preds := y_pred.map argmax
  { accuracy := accuracy_score y_true preds
    precision := macroAvg (precClass y_true preds) (presentLabels y_true preds)
    «recall» := macroAvg (recClass y_true preds) (presentLabels y_true preds)
    f1 := macroAvg (f1Class y_true preds) (presentLabels y_true preds) }

/-- Modelled from the spec's words: macro averaging "over all classes in the
class list", i.e. over all of `0..3`, absent classes contributing 0.  This
is what claim C4 asserts; the source's sklearn call does not do this. -/
def macroAvgOverClassList (f : ℕ → ℚ) : ℚ :=
  macroAvg f (List.range classes.length)

lemma countP_zip_snd_le (f : ℕ → Bool) :
    ∀ (t p : List ℕ), (t.zip p).countP (fun x => f x.2) ≤ p.countP f := by
  intro t
  induction t with
  | nil => intro p; simp
  | cons a t ih =>
    intro p
    cases p with
    | nil => simp
    | cons b p =>
      simp only [List.zip_cons_cons, List.countP_cons]
      exact Nat.add_le_add_right (ih p) _

lemma countP_zip_fst_le (f : ℕ → Bool) :
    ∀ (t p : List ℕ), (t.zip p).countP (fun x => f x.1) ≤ t.countP f := by
  intro t
  induction t with
  | nil => intro p; simp
  | cons a t ih =>
    intro p
    cases p with
    | nil => simp
    | cons b p =>
      simp only [List.zip_cons_cons, List.countP_cons]
      exact Nat.add_le_add_right (ih p) _

lemma tpCount_le_countC_pred (t p : List ℕ) (c : ℕ) :
    tpCount t p c ≤ countC p c := by
  refine le_trans ?_ (countP_zip_snd_le (fun x => x == c) t p)
  apply List.countP_mono_left
  intro x _ hx
  exact (Bool.and_elim_right hx)

lemma tpCount_le_countC_true (t p : List ℕ) (c : ℕ) :
    tpCount t p c ≤ countC t c := by
  refine le_trans ?_ (countP_zip_fst_le (fun x => x == c) t p)
  apply List.countP_mono_left
  intro x _ hx
  exact (Bool.and_elim_left hx)

lemma precClass_nonneg (t p : List ℕ) (c : ℕ) : 0 ≤ precClass t p c := by
  unfold precClass
  split
  · exact le_refl 0
  · positivity

lemma precClass_le_one (t p : List ℕ) (c : ℕ) : precClass t p c ≤ 1 := by
  unfold precClass
  split
  · norm_num
  · rename_i h
    rw [div_le_one (by exact_mod_cast Nat.pos_of_ne_zero h)]
    exact_mod_cast tpCount_le_countC_pred t p c

lemma recClass_nonneg (t p : List ℕ) (c : ℕ) : 0 ≤ recClass t p c := by
  unfold recClass
  split
  · exact le_refl 0
  · positivity

lemma recClass_le_one (t p : List ℕ) (c : ℕ) : recClass t p c ≤ 1 := by
  unfold recClass
  split
  · norm_num
  · rename_i h
    rw [div_le_one (by exact_mod_cast Nat.pos_of_ne_zero h)]
    exact_mod_cast tpCount_le_countC_true t p c

lemma f1Class_nonneg (t p : List ℕ) (c : ℕ) : 0 ≤ f1Class t p c := by
  unfold f1Class
  split
  · exact le_refl 0
  · rename_i h
    have hpr := precClass_nonneg t p c
    have hrc := recClass_nonneg t p c
    have hsum : 0 < precClass t p c + recClass t p c :=
      lt_of_le_of_ne (by linarith) (Ne.symm h)
    positivity

lemma f1Class_le_one (t p : List ℕ) (c : ℕ) : f1Class t p c ≤ 1 := by
  unfold f1Class
  split
  · norm_num
  · rename_i h
    have hpr0 := precClass_nonneg t p c
    have hpr1 := precClass_le_one t p c
    have hrc0 := recClass_nonneg t p c
    have hrc1 := recClass_le_one t p c
    have hsum : 0 < precClass t p c + recClass t p c :=
      lt_of_le_of_ne (by linarith) (Ne.symm h)
    rw [div_le_one hsum]
    nlinarith [mul_nonneg hpr0 (sub_nonneg.2 hrc1),
      mul_nonneg hrc0 (sub_nonneg.2 hpr1)]

lemma macroAvg_nonneg (f : ℕ → ℚ) (labels : List ℕ)
    (h : ∀ c ∈ labels, 0 ≤ f c) : 0 ≤ macroAvg f labels := by
  unfold macroAvg
  apply div_nonneg
  · apply List.sum_nonneg
    intro x hx
    obtain ⟨c, hc, rfl⟩ := List.mem_map.1 hx
    exact h c hc
  · exact Nat.cast_nonneg _

lemma macroAvg_le_one (f : ℕ → ℚ) (labels : List ℕ)
    (h : ∀ c ∈ labels, f c ≤ 1) : macroAvg f labels ≤ 1 := by
  unfold macroAvg
  rcases Nat.eq_zero_or_pos labels.length with hl | hl
  · rw [hl]
    norm_num
  · rw [div_le_one (by exact_mod_cast hl)]
    have hsum : (labels.map f).sum ≤ (labels.map f).length • (1 : ℚ) := by
      apply List.sum_le_card_nsmul
      intro x hx
      obtain ⟨c, hc, rfl⟩ := List.mem_map.1 hx
      exact h c hc
    simpa [nsmul_eq_mul] using hsum

/-- **C4, counterexample.**  The claim says the macro metrics average over
*all* classes of the class list, absent classes contributing 0.  For the
one-element batch with target 0 and logits predicting 0, the code's macro
precision is `1` (sklearn averages over the observed label set `{0}`),
while the claimed average over the four-class list would be `1/4`. -/
theorem c4_counterexample :
    ([[(1 : ℚ), 0, 0, 0]].map argmax = [0]) ∧
    (calculate_metrics [0] [[(1 : ℚ), 0, 0, 0]]).precision = 1 ∧
    macroAvgOverClassList (precClass [0] [0]) = 1 / 4 ∧
    (calculate_metrics [0] [[(1 : ℚ), 0, 0, 0]]).precision ≠
      macroAvgOverClassList (precClass [0] [0]) := by
  have hpreds : [[(1 : ℚ), 0, 0, 0]].map argmax = [0] := by
    norm_num [argmax, argmaxGo]
  have hprec : precClass [0] [0] 0 = 1 := by
    norm_num [precClass, countC, tpCount, List.countP_cons]
  have habsent : ∀ c, c ≠ 0 → precClass [0] [0] c = 0 := by
    intro c hc
    have : countC [0] c = 0 := by
      simp [countC, List.countP_cons, Ne.symm hc]
    simp [precClass, this]
  have hcode : (calculate_metrics [0] [[(1 : ℚ), 0, 0, 0]]).precision = 1 := by
    simp only [calculate_metrics, hpreds]
    have hlab : presentLabels [0] [0] = [0] := rfl
    rw [hlab]
    simp [macroAvg, hprec]
  have hclaim : macroAvgOverClassList (precClass [0] [0]) = 1 / 4 := by
    unfold macroAvgOverClassList
    have hrange : List.range classes.length = [0, 1, 2, 3] := rfl
    rw [hrange]
    simp [macroAvg, hprec, habsent 1 (by norm_num), habsent 2 (by norm_num),
      habsent 3 (by norm_num)]
  refine ⟨hpreds, hcode, hclaim, ?_⟩
  rw [hcode, hclaim]
  norm_num

/-- **C4, amended.**  The macro precision / recall / F1 of
`calculate_metrics` are averaged over the classes *observed in the targets
or predictions* (sklearn's `labels=None`), not over the whole class list;
within that label set a class with no predicted instances contributes
precision 0 and a class with no true instances contributes recall 0 (the
`zero_division=0` policy), so all three macro metrics are well-defined
numbers in `[0, 1]`. -/
theorem c4_macro_over_observed_labels (y_true : List ℕ) (y_pred : List (List ℚ)) :
    ((calculate_metrics y_true y_pred).precision =
      macroAvg (precClass y_true (y_pred.map argmax))
        (presentLabels y_true (y_pred.map argmax))) ∧
    (∀ c, countC (y_pred.map argmax) c = 0 →
      precClass y_true (y_pred.map argmax) c = 0) ∧
    (∀ c, countC y_true c = 0 → recClass y_true (y_pred.map argmax) c = 0) ∧
    (0 ≤ (calculate_metrics y_true y_pred).precision ∧
      (calculate_metrics y_true y_pred).precision ≤ 1) ∧
    (0 ≤ (calculate_metrics y_true y_pred).recall ∧
      (calculate_metrics y_true y_pred).recall ≤ 1) ∧
    (0 ≤ (calculate_metrics y_true y_pred).f1 ∧
      (calculate_metrics y_true y_pred).f1 ≤ 1) := by
  refine ⟨rfl, ?_, ?_, ⟨?_, ?_⟩, ⟨?_, ?_⟩, ⟨?_, ?_⟩⟩
  · intro c hc
    simp [precClass, hc]
  · intro c hc
    simp [recClass, hc]
  · exact macroAvg_nonneg _ _ (fun c _ => precClass_nonneg _ _ c)
  · exact macroAvg_le_one _ _ (fun c _ => precClass_le_one _ _ c)
  · exact macroAvg_nonneg _ _ (fun c _ => recClass_nonneg _ _ c)
  · exact macroAvg_le_one _ _ (fun c _ => recClass_le_one _ _ c)
  · exact macroAvg_nonneg _ _ (fun c _ => f1Class_nonneg _ _ c)
  · exact macroAvg_le_one _ _ (fun c _ => f1Class_le_one _ _ c)

/-- Witness for C4 (amended) at a concrete batch: class 3 is never
predicted, so its precision contribution is 0, and the macro precision of
the batch is a number in `[0, 1]`. -/
theorem c4_witness :
    countC ([[(1 : ℚ), 0, 0, 0]].map argmax) 3 = 0 ∧
    precClass [0] ([[(1 : ℚ), 0, 0, 0]].map argmax) 3 = 0 ∧
    0 ≤ (calculate_metrics [0] [[(1 : ℚ), 0, 0, 0]]).precision := by
  have h3 : countC ([[(1 : ℚ), 0, 0, 0]].map argmax) 3 = 0 := by
    norm_num [argmax, argmaxGo, countC, List.countP_cons]
  exact ⟨h3, (c4_macro_over_observed_labels [0] [[(1 : ℚ), 0, 0, 0]]).2.1 3 h3,
    (c4_macro_over_observed_labels [0] [[(1 : ℚ), 0, 0, 0]]).2.2.2.1.1⟩

/-! ### Accuracy bounds and the perfect batch (C8) -/

lemma matchCount_self (t : List ℕ) : matchCount t t = t.length := by
  induction t with
  | nil => rfl
  | cons a t ih =>
    simp [matchCount, List.countP_cons] at ih ⊢
    exact ih

lemma tpCount_self (t : List ℕ) (c : ℕ) : tpCount t t c = countC t c := by
  induction t with
  | nil => rfl
  | cons a t ih =>
    simp only [tpCount, countC, List.zip_cons_cons, List.countP_cons,
      Bool.and_self] at ih ⊢
    rw [ih]

lemma countC_pos_of_mem {t : List ℕ} {c : ℕ} (h : c ∈ t) : countC t c ≠ 0 := by
  have : 0 < t.countP (fun x => x == c) :=
    List.countP_pos_iff.2 ⟨c, h, by simp⟩
  unfold countC
  omega

lemma mem_of_mem_presentLabels_self {t : List ℕ} {c : ℕ}
    (h : c ∈ presentLabels t t) : c ∈ t := by
  have := List.mem_dedup.1 h
  rcases List.mem_append.1 this with h1 | h1 <;> exact h1

lemma sum_map_all_one (f : ℕ → ℚ) :
    ∀ (labels : List ℕ), (∀ c ∈ labels, f c = 1) →
      (labels.map f).sum = labels.length := by
  intro labels
  induction labels with
  | nil => intro _; simp
  | cons a l ih =>
    intro h
    simp only [List.map_cons, List.sum_cons, List.length_cons]
    rw [h a (List.mem_cons_self a l), ih (fun c hc => h c (List.mem_cons_of_mem a hc))]
    push_cast
    ring

lemma macroAvg_all_one (f : ℕ → ℚ) (labels : List ℕ)
    (h : ∀ c ∈ labels, f c = 1) (hne : labels ≠ []) : macroAvg f labels = 1 := by
  unfold macroAvg
  rw [sum_map_all_one f labels h]
  have : (labels.length : ℚ) ≠ 0 := by
    simpa using hne
  field_simp

/-- **C8.** `calculate_metrics` always returns an accuracy in `[0, 1]`, and
on a (nonempty) batch whose argmax predictions coincide with the targets it
returns accuracy `1` and macro F1 `1`. -/
theorem c8_accuracy_in_unit_interval (y_true : List ℕ) (y_pred : List (List ℚ)) :
    (0 ≤ (calculate_metrics y_true y_pred).accuracy ∧
      (calculate_metrics y_true y_pred).accuracy ≤ 1) ∧
    (y_pred.map argmax = y_true → y_true ≠ [] →
      (calculate_metrics y_true y_pred).accuracy = 1 ∧
      (calculate_metrics y_true y_pred).f1 = 1) := by
  constructor
  · constructor
    · apply div_nonneg <;> exact Nat.cast_nonneg _
    · show (matchCount y_true (y_pred.map argmax) : ℚ) / (y_true.length : ℚ) ≤ 1
      rcases Nat.eq_zero_or_pos y_true.length with hl | hl
      · rw [hl]
        norm_num
      · rw [div_le_one (by exact_mod_cast hl)]
        have h1 : matchCount y_true (y_pred.map argmax) ≤
            (y_true.zip (y_pred.map argmax)).length := List.countP_le_length _
        have h2 : (y_true.zip (y_pred.map argmax)).length ≤ y_true.length := by
          rw [List.length_zip]
          exact min_le_left _ _
        exact_mod_cast le_trans h1 h2
  · intro hperfect hne
    constructor
    · show (matchCount y_true (y_pred.map argmax) : ℚ) / (y_true.length : ℚ) = 1
      rw [hperfect, matchCount_self]
      have : (y_true.length : ℚ) ≠ 0 := by
        simpa using hne
      field_simp
    · show macroAvg (f1Class y_true (y_pred.map argmax))
        (presentLabels y_true (y_pred.map argmax)) = 1
      rw [hperfect]
      apply macroAvg_all_one
      · intro c hc
        have hcmem : c ∈ y_true := mem_of_mem_presentLabels_self hc
        have hcnt : countC y_true c ≠ 0 := countC_pos_of_mem hcmem
        have hpr : precClass y_true y_true c = 1 := by
          unfold precClass
          rw [if_neg hcnt, tpCount_self]
          have : (countC y_true c : ℚ) ≠ 0 := by exact_mod_cast hcnt
          field_simp
        have hrc : recClass y_true y_true c = 1 := by
          unfold recClass
          rw [if_neg hcnt, tpCount_self]
          have : (countC y_true c : ℚ) ≠ 0 := by exact_mod_cast hcnt
          field_simp
        unfold f1Class
        rw [hpr, hrc]
        norm_num
      · intro hlab
        obtain ⟨a, ha⟩ := List.exists_mem_of_ne_nil y_true hne
        have : a ∈ presentLabels y_true y_true :=
          List.mem_dedup.2 (List.mem_append.2 (Or.inl ha))
        rw [hlab] at this
        exact List.not_mem_nil a this

/-- Witness for C8: the two-example batch whose logits predict exactly the
targets `[0, 1]` yields accuracy 1 and macro F1 1. -/
theorem c8_witness :
    ([[(9 : ℚ), 0, 0, 0], [0, 9, 0, 0]].map argmax = [0, 1]) ∧
    (calculate_metrics [0, 1] [[(9 : ℚ), 0, 0, 0], [0, 9, 0, 0]]).accuracy = 1 ∧
    (calculate_metrics [0, 1] [[(9 : ℚ), 0, 0, 0], [0, 9, 0, 0]]).f1 = 1 := by
  have hp : [[(9 : ℚ), 0, 0, 0], [0, 9, 0, 0]].map argmax = [0, 1] := by
    norm_num [argmax, argmaxGo]
  exact ⟨hp,
    (c8_accuracy_in_unit_interval [0, 1] [[(9 : ℚ), 0, 0, 0], [0, 9, 0, 0]]).2
      hp (by simp)⟩

/-! ### Split membership and loader order (`get_datasets` / `get_dataloaders`)

`get_datasets` partitions with `torch.utils.data.random_split`, which draws
a random permutation of all indices and hands each subset a contiguous slice
of it, in permutation order.  `get_dataloaders` then builds
`DataLoader(..., shuffle=True)` for train and `shuffle=False` for val/test:
an unshuffled loader iterates the subset in its own (slice) order on every
pass, a shuffled one draws a fresh permutation per pass. -/

/-- `random_split(full_dataset, [len1, len2, len3])`: the index lists of the
three subsets, as slices of the framework's random permutation `perm`. -/
def random_split_indices (perm : List ℕ) (len1 len2 : ℕ) :
    List ℕ × List ℕ × List ℕ :=
  (perm.take len1, (perm.drop len1).take len2, (perm.drop len1).drop len2)

/-- The (train, val, test) index lists produced by `get_datasets` on a
manifest of `n` rows, given the permutation `perm` drawn by the framework. -/
def get_datasets_indices (n : ℕ) (perm : List ℕ) :
    List ℕ × List ℕ × List ℕ :=
  random_split_indices perm (train_size n) (val_size n)

/-- The `shuffle` flags passed by `get_dataloaders` to the (train, val,
test) loaders. -/
def get_dataloaders_shuffle : Bool × Bool × Bool := (true, false, false)

/-- The order in which pass number `pass` of a `DataLoader` visits the
dataset whose own order is `indices`: a fresh permutation per pass when
`shuffle` is set, the dataset order otherwise. -/
def loaderPassOrder (indices : List ℕ) (shuffle : Bool)
    (passShuffle : ℕ → List ℕ → List ℕ) (pass : ℕ) : List ℕ :=
  if shuffle then passShuffle pass indices else indices

/-- A permutation of `range 20` that `random_split` can draw, whose
validation slice (positions 16–17) is `[19, 15]`. -/
def permExample : List ℕ :=
  [0, 1, 2, 3, 4, 5, 6, 7, 8, 9, 10, 11, 12, 13, 14, 16, 19, 15, 17, 18]

/-- **C5, counterexample.**  The claim says every pass of the validation
and test loaders visits the examples in manifest order.  But the subsets
are slices of a random permutation: for the legitimate draw `permExample`
on 20 rows the validation loader visits row 19 before row 15 — not manifest
order (`shuffle=False` only freezes the slice order across passes). -/
theorem c5_counterexample :
    permExample.Perm (List.range 20) ∧
    (get_datasets_indices 20 permExample).2.1 = [19, 15] ∧
    loaderPassOrder (get_datasets_indices 20 permExample).2.1 false
      (fun _ l => l) 0 = [19, 15] ∧
    ¬ List.Sorted (· ≤ ·)
      (loaderPassOrder (get_datasets_indices 20 permExample).2.1 false
        (fun _ l => l) 0) := by
  have ht : train_size 20 = 16 := by rw [train_size_eq]
  have hv : val_size 20 = 2 := by rw [val_size_eq]
  have hval : (get_datasets_indices 20 permExample).2.1 = [19, 15] := by
    unfold get_datasets_indices random_split_indices
    rw [ht, hv]
    rfl
  have horder : loaderPassOrder (get_datasets_indices 20 permExample).2.1 false
      (fun _ l => l) 0 = [19, 15] := by
    rw [loaderPassOrder, if_neg (by simp), hval]
  refine ⟨by decide, hval, horder, ?_⟩
  rw [horder]
  decide

/-- **C5, amended.**  `get_dataloaders` builds the train loader with
`shuffle=True` (a fresh permutation each pass) and the val/test loaders
with `shuffle=False`, so every pass of the val/test loaders visits the
examples in the fixed order of the corresponding `random_split` slice —
identical across passes but in permutation order, not necessarily manifest
order — and the three slices partition the permutation exactly. -/
theorem c5_loader_orders (n : ℕ) (perm : List ℕ)
    (passShuffle : ℕ → List ℕ → List ℕ) (p q : ℕ) :
    get_dataloaders_shuffle = (true, false, false) ∧
    loaderPassOrder (get_datasets_indices n perm).2.1 false passShuffle p =
      (get_datasets_indices n perm).2.1 ∧
    loaderPassOrder (get_datasets_indices n perm).2.2 false passShuffle p =
      loaderPassOrder (get_datasets_indices n perm).2.2 false passShuffle q ∧
    loaderPassOrder (get_datasets_indices n perm).1 true passShuffle p =
      passShuffle p (get_datasets_indices n perm).1 ∧
    (get_datasets_indices n perm).1 ++ (get_datasets_indices n perm).2.1 ++
      (get_datasets_indices n perm).2.2 = perm := by
  refine ⟨rfl, rfl, rfl, rfl, ?_⟩
  unfold get_datasets_indices random_split_indices
  simp [List.append_assoc]

/-! ### Evaluation with an optional checkpoint (`evaluate.py` lines 40–48) -/

/-- The observable outcome of one `evaluate` run over the abstract weight
type `W`: which parameter state was used, whether the missing-checkpoint
message was printed, and the predictions collected over the test loader. -/
structure EvalOutcome (W : Type) where
  usedWeights : W
  reportedMissingCkpt : Bool
  predictions : List ℕ

/-- `evaluate`: build the architecture with fresh weights `initWeights`;
`if os.path.exists(args.checkpoint)` load the saved state, else print
"Checkpoint not found ... Testing with random weights." and keep the fresh
weights; in both cases run inference over the whole test set.  `fs` maps a
path to the weights stored there (`none` when the file does not exist). -/
def evaluateRun (W Item : Type) (fs : String → Option W) (ckpt_path : String)
    (initWeights : W) (modelForward : W → Item → ℕ) (testSet : List Item) :
    EvalOutcome W :=
  match fs ckpt_path with
  | some w => ⟨w, false, testSet.map (modelForward w)⟩
  | none => ⟨initWeights, true, testSet.map (modelForward initWeights)⟩

/-- **C7.** A missing checkpoint file does not make `evaluate` fail: it
reports the missing file and evaluates the full test set with the freshly
initialised weights; when the file exists its weights are loaded instead.
In both cases one prediction is produced per test example. -/
theorem c7_missing_checkpoint_degrades (W Item : Type) (fs : String → Option W)
    (ckpt_path : String) (initWeights : W) (modelForward : W → Item → ℕ)
    (testSet : List Item) :
    (fs ckpt_path = none →
      evaluateRun W Item fs ckpt_path initWeights modelForward testSet =
        ⟨initWeights, true, testSet.map (modelForward initWeights)⟩) ∧
    (∀ w, fs ckpt_path = some w →
      evaluateRun W Item fs ckpt_path initWeights modelForward testSet =
        ⟨w, false, testSet.map (modelForward w)⟩) ∧
    (evaluateRun W Item fs ckpt_path initWeights modelForward
        testSet).predictions.length = testSet.length := by
  refine ⟨?_, ?_, ?_⟩
  · intro h
    unfold evaluateRun
    rw [h]
  · intro w h
    unfold evaluateRun
    rw [h]
  · unfold evaluateRun
    cases fs ckpt_path <;> simp

/-- Witness for C7: an empty filesystem, a one-example test set. -/
theorem c7_witness :
    evaluateRun ℕ ℕ (fun _ => none) "checkpoints/best_model_vit.pth" 5
        (fun w x => w + x) [1] = ⟨5, true, [6]⟩ ∧
    (evaluateRun ℕ ℕ (fun _ => none) "checkpoints/best_model_vit.pth" 5
        (fun w x => w + x) [1]).predictions.length = 1 :=
  ⟨(c7_missing_checkpoint_degrades ℕ ℕ (fun _ => none)
      "checkpoints/best_model_vit.pth" 5 (fun w x => w + x) [1]).1 rfl,
   (c7_missing_checkpoint_degrades ℕ ℕ (fun _ => none)
      "checkpoints/best_model_vit.pth" 5 (fun w x => w + x) [1]).2.2⟩

end PlantDisease
